import Mathlib

/-!
Verification of the GPTMart serialized JSON-store server.

This file gives a shallow embedding of the core of the repository:

* the in-memory `Doc`ument (`settings` + `items`) and its JSON
  serialization (`JSON.stringify` / `JSON.parse` modelled at the level of a
  JSON value tree `J`);
* the payload validator `coerceItemPayload`;
* the endpoint mutators (`create`, `update/:id`, `delete/:id`, settings);
* the write queue (`enqueueWrite` / `processQueue` with its `writing` flag),
  modelled as an event-driven state machine whose events are interleavings
  of enqueues and drain-loop resumptions;
* `atomicWrite` / `writeJSON` (write temp file, then rename) over an
  explicit file-system map;
* `loadDB` (and the second variant's `readJSON`) over parsed file content.

Mutators operate on the shared document in place; a mutator is therefore a
function `Doc → Option Err × Doc` returning the thrown error (if any)
together with the document as left in memory after the call.
-/

namespace GPTMart

/-- A thrown JS error: its message and the optional `err.status` field the
handlers attach for HTTP surfacing. -/
structure Err where
  message : String
  status : Option Nat
deriving DecidableEq, Repr

/-- `settings` part of the document (currently just the display title). -/
structure Settings where
  title : String
deriving DecidableEq, Repr

/-- One catalog entry, in the shape built by the create endpoint:
`{ id, createdAt, title, url, icon, desc, categories, tags, featured, status }`. -/
structure Item where
  id : String
  createdAt : Nat
  title : String
  url : String
  icon : String
  desc : String
  categories : List String
  tags : List String
  featured : Bool
  status : String
deriving DecidableEq, Repr

/-- The whole persisted document: `{ settings, items }`. -/
structure Doc where
  settings : Settings
  items : List Item
deriving DecidableEq, Repr

/-- The default document the module initializes `DB` with:
`{ settings: { title: "GPTMart" }, items: [] }`. -/
def defaultDoc : Doc := ⟨⟨"GPTMart"⟩, []⟩

/-- JSON value tree: the common abstraction of `JSON.stringify` output and
`JSON.parse` input (text-level concrete syntax is not modelled; `stringify`
and `parse` compose to the identity on this tree). -/
inductive J where
  | null : J
  | bool : Bool → J
  | num : Int → J
  | str : String → J
  | arr : List J → J
  | obj : List (String × J) → J
deriving Repr

/-- `JSON.stringify` of an item, with the key insertion order of the create
endpoint: `{ id, createdAt, ...payload }`. -/
def encodeItem (it : Item) : J :=
  .obj [("id", .str it.id), ("createdAt", .num it.createdAt),
        ("title", .str it.title), ("url", .str it.url),
        ("icon", .str it.icon), ("desc", .str it.desc),
        ("categories", .arr (it.categories.map J.str)),
        ("tags", .arr (it.tags.map J.str)),
        ("featured", .bool it.featured), ("status", .str it.status)]

/-- `JSON.stringify` of a document. -/
def encodeDoc (d : Doc) : J :=
  .obj [("settings", .obj [("title", .str d.settings.title)]),
        ("items", .arr (d.items.map encodeItem))]

/-- Property access on a parsed JSON object (first binding wins, as in a JS
object literal with distinct keys). -/
def lookupField : List (String × J) → String → Option J
  | [], _ => none
  | (k, v) :: rest, key => if k = key then some v else lookupField rest key

/-- Read back a JSON array of strings. -/
def decodeStrList : List J → Option (List String)
  | [] => some []
  | .str s :: rest => (decodeStrList rest).map (fun l => s :: l)
  | _ => none

def jStr : J → Option String
  | .str s => some s
  | _ => none

def jNat : J → Option Nat
  | .num (.ofNat n) => some n
  | _ => none

def jBool : J → Option Bool
  | .bool b => some b
  | _ => none

def jStrList : J → Option (List String)
  | .arr l => decodeStrList l
  | _ => none

/-- Read an `Item` back from the JSON value `encodeItem` produces. -/
def decodeItem : J → Option Item
  | .obj fields => do
    let id ← (lookupField fields "id").bind jStr
    let c ← (lookupField fields "createdAt").bind jNat
    let t ← (lookupField fields "title").bind jStr
    let u ← (lookupField fields "url").bind jStr
    let ic ← (lookupField fields "icon").bind jStr
    let de ← (lookupField fields "desc").bind jStr
    let cs ← (lookupField fields "categories").bind jStrList
    let ts ← (lookupField fields "tags").bind jStrList
    let f ← (lookupField fields "featured").bind jBool
    let st ← (lookupField fields "status").bind jStr
    pure ⟨id, c, t, u, ic, de, cs, ts, f, st⟩
  | _ => none

/-- Read back a JSON array of items. -/
def decodeItemList : List J → Option (List Item)
  | [] => some []
  | j :: rest =>
    match decodeItem j, decodeItemList rest with
    | some it, some l => some (it :: l)
    | _, _ => none

/-- Read a `Doc` back from the JSON value `encodeDoc` produces. -/
def decodeDoc : J → Option Doc
  | .obj fields =>
    match lookupField fields "settings", lookupField fields "items" with
    | some (.obj sf), some (.arr items) =>
      match lookupField sf "title", decodeItemList items with
      | some (.str t), some l => some ⟨⟨t⟩, l⟩
      | _, _ => none
    | _, _ => none
  | _ => none

/-! ## Request payloads and `coerceItemPayload` -/

/-- A request body, restricted to the item-typed fields the handlers read.
`none` models an absent key.  `categories`/`tags` may arrive as a JSON array
(`Sum.inl`) or as any other value, which the code stringifies (`Sum.inr`). -/
structure Body where
  id : Option String := none
  createdAt : Option Nat := none
  title : Option String := none
  url : Option String := none
  icon : Option String := none
  desc : Option String := none
  categories : Option (List String ⊕ String) := none
  tags : Option (List String ⊕ String) := none
  featured : Bool := false
  status : Option String := none
deriving DecidableEq, Repr

/-- A JS object holding some subset of an item's keys, e.g. the result of
`coerceItemPayload` (which never carries `id`/`createdAt`) or an update body.
A `none` field models an absent key, so that `{ ...old, ...patch }` keeps
the old value there. -/
structure ItemPatch where
  id : Option String := none
  createdAt : Option Nat := none
  title : Option String := none
  url : Option String := none
  icon : Option String := none
  desc : Option String := none
  categories : Option (List String) := none
  tags : Option (List String) := none
  featured : Option Bool := none
  status : Option String := none
deriving DecidableEq, Repr

/-- JS object spread `{ ...old, ...patch }` at the item level: every key
present in `patch` overwrites `old`'s value, absent keys keep it. -/
def spreadItem (old : Item) (patch : ItemPatch) : Item where
  id := patch.id.getD old.id
  createdAt := patch.createdAt.getD old.createdAt
  title := patch.title.getD old.title
  url := patch.url.getD old.url
  icon := patch.icon.getD old.icon
  desc := patch.desc.getD old.desc
  categories := patch.categories.getD old.categories
  tags := patch.tags.getD old.tags
  featured := patch.featured.getD old.featured
  status := patch.status.getD old.status

/-- JS `String.prototype.trim`: drop whitespace from both ends. -/
def jsTrim (s : String) : String :=
  ⟨((s.data.dropWhile Char.isWhitespace).reverse.dropWhile Char.isWhitespace).reverse⟩

def splitCommaAux : List Char → List Char → List String
  | [], acc => [⟨acc.reverse⟩]
  | c :: rest, acc =>
    if c = ',' then ⟨acc.reverse⟩ :: splitCommaAux rest [] else splitCommaAux rest (c :: acc)

/-- JS `s.split(",")` (note `"".split(",")` is `[""]`). -/
def jsSplitComma (s : String) : List String := splitCommaAux s.data []

/-- `String(x || "").split(",").map(s => s.trim()).filter(Boolean)` for a
non-array value, and `x.map(String).map(trim).filter(Boolean)` for an
array; an absent key stringifies to `""`. -/
def coerceList (v : Option (List String ⊕ String)) : List String :=
  match v with
  | some (.inl xs) => (xs.map jsTrim).filter (fun s => s ≠ "")
  | some (.inr s) => ((jsSplitComma s).map jsTrim).filter (fun s => s ≠ "")
  | none => ((jsSplitComma "").map jsTrim).filter (fun s => s ≠ "")

/-- The create/update validator: trims the free-text fields, normalizes
`categories`/`tags`, booleanizes `featured`, forces `status` to `"hidden"`
or `"live"`, and throws a 400 when the trimmed title or url is empty.
It never emits `id` or `createdAt` keys. -/
def coerceItemPayload (body : Body) : Except Err ItemPatch :=
  let title := jsTrim (body.title.getD "")
  let url := jsTrim (body.url.getD "")
  if title = "" ∨ url = "" then
    .error ⟨"title and url are required", some 400⟩
  else
    .ok { title := some title
          url := some url
          icon := some (jsTrim (body.icon.getD ""))
          desc := some (jsTrim (body.desc.getD ""))
          categories := some (coerceList body.categories)
          tags := some (coerceList body.tags)
          featured := some body.featured
          status := some (if body.status = some "hidden" then "hidden" else "live") }

/-! ## Endpoint mutators

A mutator runs in place against the shared document: it is modelled as
`Doc → Option Err × Doc`, the thrown error (if any) paired with the document
value as left in memory when the mutator returns or throws. -/

/-- The error `update/:id` and `delete/:id` throw for an unknown id. -/
def notFoundErr : Err := ⟨"Item not found", some 404⟩

/-- Mutator of `POST /api/gpts/create`: `db.items.push(item)` where `item`
is `{ id: uuidv4(), createdAt: Date.now(), ...payload }`. -/
def createMutator (item : Item) : Doc → Option Err × Doc :=
  fun db => (none, { db with items := db.items ++ [item] })

/-- `db.items.findIndex(x => x.id === id)` followed by
`db.items[i] = f(db.items[i])`: replace the first item with that id. -/
def updateFirst : List Item → String → (Item → Item) → List Item
  | [], _, _ => []
  | x :: rest, id, f =>
    if x.id = id then f x :: rest else x :: updateFirst rest id f

/-- Mutator of `PUT /api/gpts/update/:id`: find the item; if absent throw a
404 before touching the document, else overwrite it with
`{ ...db.items[i], ...payload }`. -/
def updateMutator (id : String) (payload : ItemPatch) : Doc → Option Err × Doc :=
  fun db =>
    if db.items.any (fun x => x.id = id) then
      (none, { db with items := updateFirst db.items id (fun x => spreadItem x payload) })
    else
      (some notFoundErr, db)

/-- Mutator of `DELETE /api/gpts/delete/:id`: reassign
`db.items = db.items.filter(x => x.id !== id)`, then throw a 404 when the
length did not change. -/
def deleteMutator (id : String) : Doc → Option Err × Doc :=
  fun db =>
    let items' := db.items.filter (fun x => x.id ≠ id)
    if items'.length = db.items.length then
      (some notFoundErr, { db with items := items' })
    else
      (none, { db with items := items' })

/-- Mutator of `PUT /api/settings`: `db.settings.title = nextTitle`. -/
def settingsMutator (nextTitle : String) : Doc → Option Err × Doc :=
  fun db => (none, { db with settings := ⟨nextTitle⟩ })

/-- The mutators this server ever enqueues: exactly the closures built by
its four mutating endpoints. -/
def ProgramMutator (m : Doc → Option Err × Doc) : Prop :=
  (∃ item, m = createMutator item) ∨
  (∃ id payload, m = updateMutator id payload) ∨
  (∃ id, m = deleteMutator id) ∨
  (∃ t, m = settingsMutator t)

/-! ## The write queue (`enqueueWrite` / `processQueue`)

The server is single-threaded and event-driven: mutator application and
queue manipulation are synchronous, and control only interleaves at the
`await` suspension points of the drain loop.  An execution is therefore an
arbitrary interleaving of two kinds of events: an `enq` (a call to
`enqueueWrite`, which pushes the entry and invokes `processQueue`) and a
`step` (the active drain loop resuming and handling one queue entry, or
exiting when the queue is empty).  Disk-write failures are injected by an
oracle `persistFail : Nat → Option Err` consulted at the n-th persist
attempt. -/

/-- How one queued entry completed. -/
inductive Outcome where
  | resolved : Outcome
  | rejected : Err → Outcome
deriving DecidableEq, Repr

/-- Observation record for one completed entry: its admission index, how
its promise settled, and the in-memory document and on-disk content at the
moment it settled. -/
structure Completion where
  idx : Nat
  outcome : Outcome
  dbAfter : Doc
  diskAfter : Option J

/-- State of the store: the `writing` flag, the number of drain loops
currently running (ghost counter: incremented when `processQueue` passes
the `writing` guard, decremented when its `while` loop exits), the pending
queue tagged with admission indices, the shared in-memory document, the
parsed content of the file at `DB_PATH`, the number of persist attempts and
of successful persists, and the completion log. -/
structure QState where
  writing : Bool
  drainLoops : Nat
  queue : List (Nat × (Doc → Option Err × Doc))
  nextIdx : Nat
  db : Doc
  disk : Option J
  attempts : Nat
  persists : Nat
  results : List Completion

/-- Initial state: nothing queued, no loop running. -/
def initQ (db : Doc) (disk : Option J) : QState :=
  { writing := false, drainLoops := 0, queue := [], nextIdx := 0
    db := db, disk := disk, attempts := 0, persists := 0, results := [] }

/-- `enqueueWrite(mutator)`: push `{mutator, resolve, reject}` onto the
queue, then call `processQueue`, which returns at once when `writing` is
already set and otherwise sets it and starts the (sole) drain loop. -/
def enqueueWrite (m : Doc → Option Err × Doc) (s : QState) : QState :=
  if s.writing then
    { s with queue := s.queue ++ [(s.nextIdx, m)], nextIdx := s.nextIdx + 1 }
  else
    { s with queue := s.queue ++ [(s.nextIdx, m)], nextIdx := s.nextIdx + 1
             writing := true, drainLoops := s.drainLoops + 1 }

/-- One resumption of the active drain loop: with an empty queue the
`while` exits and clears `writing`; otherwise `queue.shift()` pops the head
entry, its mutator runs against the live document, and on success the whole
document is persisted (`atomicWrite` of `JSON.stringify(DB)`), after which
the entry's promise settles.  When no loop is running nothing happens. -/
def drainStep (persistFail : Nat → Option Err) (s : QState) : QState :=
  if s.writing = false then s
  else
    match s.queue with
    | [] => { s with writing := false, drainLoops := s.drainLoops - 1 }
    | (i, m) :: rest =>
      let r := m s.db
      match r.1 with
      | some e =>
        { s with queue := rest, db := r.2
                 results := s.results ++ [⟨i, .rejected e, r.2, s.disk⟩] }
      | none =>
        match persistFail s.attempts with
        | none =>
          { s with queue := rest, db := r.2, disk := some (encodeDoc r.2)
                   attempts := s.attempts + 1, persists := s.persists + 1
                   results := s.results ++ [⟨i, .resolved, r.2, some (encodeDoc r.2)⟩] }
        | some pe =>
          { s with queue := rest, db := r.2, attempts := s.attempts + 1
                   results := s.results ++ [⟨i, .rejected pe, r.2, s.disk⟩] }

/-- An execution event: a call to `enqueueWrite`, or the drain loop
resuming once. -/
inductive QEvent where
  | enq : (Doc → Option Err × Doc) → QEvent
  | step : QEvent

/-- Run an interleaving of events. -/
def runQ (persistFail : Nat → Option Err) : List QEvent → QState → QState
  | [], s => s
  | .enq m :: evs, s => runQ persistFail evs (enqueueWrite m s)
  | .step :: evs, s => runQ persistFail evs (drainStep persistFail s)

/-- Number of completions whose promise resolved. -/
def countResolved (l : List Completion) : Nat :=
  l.countP (fun c => decide (c.outcome = Outcome.resolved))

/-- Inductive invariant of the store: completion log and pending queue
together carry the admission indices `0, …, nextIdx-1` in order; exactly
one drain loop runs iff `writing` is set; one successful persist happened
per resolved entry; and every resolved entry saw, when it settled, the disk
holding the serialization of the in-memory document it observed. -/
def QInv (s : QState) : Prop :=
  s.results.map Completion.idx ++ s.queue.map Prod.fst = List.range s.nextIdx ∧
  s.drainLoops = (if s.writing then 1 else 0) ∧
  countResolved s.results = s.persists ∧
  ∀ c ∈ s.results, c.outcome = Outcome.resolved →
    c.diskAfter = some (encodeDoc c.dbAfter)

/-! ## The second server variant (`server.js`)

The repository also contains two plain-`http` variants whose admin
handlers read the file, mutate the parsed document directly and write it
back, without a queue and without `coerceItemPayload`. -/

/-- Create handler of `server.js`: after stamping `body.id = uuidv4()` and
`body.createdAt = Date.now()`, it runs `db.items.unshift(body)` — the new
item goes to the front. -/
def serverCreate (item : Item) (db : Doc) : Doc :=
  { db with items := item :: db.items }

/-- Update handler of `server.js`: find the index of `id`; when present,
`db.items[idx] = { ...db.items[idx], ...body }` with the *raw* parsed
request body, then write the file back; `none` models the 404 path. -/
def serverUpdate (id : String) (body : ItemPatch) (db : Doc) : Option Doc :=
  if db.items.any (fun x => x.id = id) then
    some { db with items := updateFirst db.items id (fun x => spreadItem x body) }
  else
    none

/-! ## Startup (`loadDB` / `readJSON`)

These are modelled over the *parsed* content of the file: an input of
`none` stands for a file that is absent, unreadable, or whose text
`JSON.parse` rejects; `some v` stands for text that parses to the JSON
value `v`. -/

/-- JS truthiness of a parsed JSON value. -/
def jsTruthy : J → Bool
  | .null => false
  | .bool b => b
  | .num n => n ≠ 0
  | .str s => s ≠ ""
  | .arr _ => true
  | .obj _ => true

/-- `typeof v === "object"` for a parsed JSON value (`null` and arrays
included). -/
def jsIsObject : J → Bool
  | .null => true
  | .arr _ => true
  | .obj _ => true
  | _ => false

/-- `obj.k ||= v`: (re)bind the key when it is absent or its value is
falsy. -/
def setDefaultField (fields : List (String × J)) (k : String) (v : J) :
    List (String × J) :=
  match lookupField fields k with
  | some old => if jsTruthy old then fields else
      fields.map (fun kv => if kv.1 = k then (k, v) else kv)
  | none => fields ++ [(k, v)]

/-- The `DB.items ||= []; DB.settings ||= { title: "GPTMart" }` fixups.  On
an array (which the validity check lets through) JS would attach named
properties; those are invisible to `JSON.stringify`, and the value is left
unchanged here. -/
def patchDefaults : J → J
  | .obj fields =>
    .obj (setDefaultField (setDefaultField fields "items" (.arr []))
      "settings" (.obj [("title", .str "GPTMart")]))
  | v => v

/-- `loadDB()` of the queue server: parse the file into the module-level
`DB`; a parse result that is falsy or not `typeof "object"` throws
`Invalid DB format` *after `DB` has already been reassigned*, and the catch
block persists `JSON.stringify(DB)` — whatever `DB` now holds.  Returns the
resulting in-memory `DB` and the content written to disk (if any). -/
def loadDB (input : Option J) (cur : J) : J × Option J :=
  match input with
  | none => (cur, some cur)
  | some v =>
    if jsTruthy v = false ∨ jsIsObject v = false then (v, some v)
    else (patchDefaults v, none)

/-- `readJSON(file, fallback)` of `server.js`: return the parsed value; only
when reading/parsing *throws* is the fallback written and returned.  A file
whose text parses to anything — `null` included — is returned as-is. -/
def readJSON (input : Option J) (fallback : J) : J × Option J :=
  match input with
  | none => (fallback, some fallback)
  | some v => (v, none)

/-! ## `atomicWrite` / `writeJSON` over an explicit file system

A file system maps paths to file content; `fsWrite` models `fs.writeFile`
(complete content replacement at one path) and `fsRename` models the atomic
`fs.rename`.  An `atomicWrite` execution passes through three states —
initial, after the temp-file write, after the rename — and a crash can stop
it at any of them. -/

def FS : Type := String → Option String

def fsWrite (fs : FS) (p data : String) : FS :=
  fun q => if q = p then some data else fs q

def fsRename (fs : FS) (src dst : String) : FS :=
  fun q => if q = dst then fs src else if q = src then none else fs q

/-- `path.join(__dirname, "db.json")`, with the directory prefix elided. -/
def DB_PATH : String := "db.json"

/-- `const TMP_PATH = DB_PATH + ".tmp"`. -/
def TMP_PATH : String := DB_PATH ++ ".tmp"

/-- The states `atomicWrite(finalPath, data)` passes through: it writes
`data` to `TMP_PATH` (note: the module-level constant, not derived from
`finalPath`), then renames `TMP_PATH` over `finalPath`. -/
def atomicWrite (finalPath data : String) (fs : FS) : List FS :=
  [fs, fsWrite fs TMP_PATH data,
   fsRename (fsWrite fs TMP_PATH data) TMP_PATH finalPath]

/-- The states `writeJSON(file, data)` of `server.js` passes through: the
temp path is `file + '.tmp'`. -/
def writeJSON (file data : String) (fs : FS) : List FS :=
  [fs, fsWrite fs (file ++ ".tmp") data,
   fsRename (fsWrite fs (file ++ ".tmp") data) (file ++ ".tmp") file]

/-- The item object built by the part_006 create handler:
`{ id: uuidv4(), createdAt: Date.now(), ...payload }`.  The payload coming
from `coerceItemPayload` always carries the remaining eight keys, so the
placeholder values of the base never survive the spread. -/
def buildItem (newId : String) (now : Nat) (p : ItemPatch) : Item :=
  spreadItem
    { id := newId, createdAt := now, title := "", url := "", icon := ""
      desc := "", categories := [], tags := [], featured := false, status := "" } p

/-! ## Concrete sample values (used to instantiate the theorems) -/

def sampleItem : Item :=
  ⟨"a1", 1, "Alpha", "https://chatgpt.com/g/a", "", "", [], [], false, "live"⟩

def sampleItem2 : Item :=
  ⟨"b2", 2, "Beta", "https://chatgpt.com/g/b", "", "", [], [], false, "hidden"⟩

def sampleDoc : Doc := ⟨⟨"GPTMart"⟩, [sampleItem]⟩

/-- Persist oracle of an always-healthy disk. -/
def noFail : Nat → Option Err := fun _ => none

def diskErr : Err := ⟨"EIO: i/o error, write", none⟩

/-- Persist oracle whose first write attempt fails. -/
def failFirst : Nat → Option Err := fun n => if n = 0 then some diskErr else none

def sampleBody : Body :=
  { title := some " Alpha ", url := some "https://chatgpt.com/g/a"
    status := some "pending" }

/-- `coerceItemPayload sampleBody` evaluates to exactly this patch. -/
def samplePatch : ItemPatch :=
  { title := some "Alpha", url := some "https://chatgpt.com/g/a"
    icon := some "", desc := some "", categories := some [], tags := some []
    featured := some false, status := some "live" }

def titlePatch : ItemPatch := { title := some "New" }

def evilPatch : ItemPatch := { id := some "evil", title := some "New" }

def evilResultItem : Item :=
  ⟨"evil", 1, "New", "https://chatgpt.com/g/a", "", "", [], [], false, "live"⟩

def sampleEvs : List QEvent := [.enq (createMutator sampleItem), .step, .step]

/-- A drain in progress about to run an update for an id absent from an
empty catalog. -/
def throwState : QState :=
  { writing := true, drainLoops := 1
    queue := [(0, updateMutator "zz" samplePatch)], nextIdx := 1
    db := defaultDoc, disk := some (encodeDoc defaultDoc)
    attempts := 0, persists := 0, results := [] }

/-- A drain in progress about to run a create whose persist will fail. -/
def persistFailState : QState :=
  { writing := true, drainLoops := 1
    queue := [(0, createMutator sampleItem)], nextIdx := 1
    db := defaultDoc, disk := some (encodeDoc defaultDoc)
    attempts := 0, persists := 0, results := [] }

/-- A drain in progress about to run an update for an unknown id against
`sampleDoc`. -/
def c7State : QState :=
  { writing := true, drainLoops := 1
    queue := [(0, updateMutator "zz" samplePatch)], nextIdx := 1
    db := sampleDoc, disk := some (encodeDoc sampleDoc)
    attempts := 0, persists := 0, results := [] }

def emptyFS : FS := fun _ => none

/-- `JSON.stringify` of the default document — the file content a correct
startup should create. -/
def defaultJ : J := encodeDoc defaultDoc

/-! ## Supporting lemmas -/

theorem decodeStrList_encode (l : List String) :
    decodeStrList (l.map J.str) = some l := by
  induction l with
  | nil => rfl
  | cons s rest ih => simp [decodeStrList, ih]

theorem decodeItem_encode (it : Item) : decodeItem (encodeItem it) = some it := by
  cases it
  simp [encodeItem, decodeItem, lookupField, jStr, jNat, jBool, jStrList,
    decodeStrList_encode]

theorem decodeItemList_encode (l : List Item) :
    decodeItemList (l.map encodeItem) = some l := by
  induction l with
  | nil => rfl
  | cons it rest ih => simp [decodeItemList, decodeItem_encode, ih]

/-- Serialization round-trip: parsing the stringified document gives back a
deep-equal document. -/
theorem decodeDoc_encodeDoc (d : Doc) : decodeDoc (encodeDoc d) = some d := by
  cases d
  simp [encodeDoc, decodeDoc, lookupField, decodeItemList_encode]


theorem qinv_init (d : Doc) (disk : Option J) : QInv (initQ d disk) := by
  refine ⟨rfl, rfl, rfl, ?_⟩
  intro c hc
  simp [initQ] at hc

/-! Step-equation lemmas: the four possible effects of one drain-loop
resumption. -/

theorem drainStep_idle (pf : Nat → Option Err) (s : QState)
    (hw : s.writing = false) : drainStep pf s = s := by
  unfold drainStep
  rw [hw]
  rfl

theorem drainStep_exit (pf : Nat → Option Err) (s : QState)
    (hw : s.writing = true) (hq : s.queue = []) :
    drainStep pf s = { s with writing := false, drainLoops := s.drainLoops - 1 } := by
  unfold drainStep
  rw [hq, hw]
  rfl

theorem drainStep_throw (pf : Nat → Option Err) (s : QState)
    (i : Nat) (m : Doc → Option Err × Doc) (rest : List (Nat × (Doc → Option Err × Doc)))
    (e : Err) (d' : Doc)
    (hw : s.writing = true) (hq : s.queue = (i, m) :: rest)
    (hm : m s.db = (some e, d')) :
    drainStep pf s =
      { s with queue := rest, db := d'
               results := s.results ++ [⟨i, .rejected e, d', s.disk⟩] } := by
  simp only [drainStep, hq, hw, hm]
  rfl

theorem drainStep_persist (pf : Nat → Option Err) (s : QState)
    (i : Nat) (m : Doc → Option Err × Doc) (rest : List (Nat × (Doc → Option Err × Doc)))
    (d' : Doc)
    (hw : s.writing = true) (hq : s.queue = (i, m) :: rest)
    (hm : m s.db = (none, d')) (hp : pf s.attempts = none) :
    drainStep pf s =
      { s with queue := rest, db := d', disk := some (encodeDoc d')
               attempts := s.attempts + 1, persists := s.persists + 1
               results := s.results ++ [⟨i, .resolved, d', some (encodeDoc d')⟩] } := by
  simp only [drainStep, hq, hw, hm, hp]
  rfl

theorem drainStep_persistFail (pf : Nat → Option Err) (s : QState)
    (i : Nat) (m : Doc → Option Err × Doc) (rest : List (Nat × (Doc → Option Err × Doc)))
    (d' : Doc) (pe : Err)
    (hw : s.writing = true) (hq : s.queue = (i, m) :: rest)
    (hm : m s.db = (none, d')) (hp : pf s.attempts = some pe) :
    drainStep pf s =
      { s with queue := rest, db := d', attempts := s.attempts + 1
               results := s.results ++ [⟨i, .rejected pe, d', s.disk⟩] } := by
  simp only [drainStep, hq, hw, hm, hp]
  rfl

theorem qinv_enqueue (m : Doc → Option Err × Doc) (s : QState) (h : QInv s) :
    QInv (enqueueWrite m s) := by
  obtain ⟨h1, h2, h3, h4⟩ := h
  have key : List.map Completion.idx s.results ++
      List.map Prod.fst (s.queue ++ [(s.nextIdx, m)]) = List.range (s.nextIdx + 1) := by
    rw [List.map_append, ← List.append_assoc, h1, List.range_succ]
    rfl
  unfold enqueueWrite
  by_cases hw : s.writing
  · rw [if_pos hw]
    exact ⟨key, by simpa [hw] using h2, h3, h4⟩
  · rw [if_neg hw]
    have h2' : s.drainLoops = 0 := by rw [if_neg hw] at h2; exact h2
    refine ⟨key, by simp [h2'], h3, h4⟩

theorem qinv_newCompletion (s : QState) (c : Completion)
    (h4 : ∀ c ∈ s.results, c.outcome = Outcome.resolved →
      c.diskAfter = some (encodeDoc c.dbAfter))
    (hc : c.outcome = Outcome.resolved → c.diskAfter = some (encodeDoc c.dbAfter)) :
    ∀ x ∈ s.results ++ [c], x.outcome = Outcome.resolved →
      x.diskAfter = some (encodeDoc x.dbAfter) := by
  intro x hx hres
  rcases List.mem_append.mp hx with hx | hx
  · exact h4 x hx hres
  · rw [List.mem_singleton.mp hx]
    exact hc ((List.mem_singleton.mp hx) ▸ hres)

theorem qinv_drain (pf : Nat → Option Err) (s : QState) (h : QInv s) :
    QInv (drainStep pf s) := by
  obtain ⟨h1, h2, h3, h4⟩ := h
  by_cases hw : s.writing = true
  · cases hq : s.queue with
    | nil =>
      rw [drainStep_exit pf s hw hq]
      have h2' : s.drainLoops = 1 := by rw [if_pos hw] at h2; exact h2
      refine ⟨h1, by simp [h2'], h3, h4⟩
    | cons hd rest =>
      obtain ⟨i, m⟩ := hd
      rw [hq] at h1
      have h1' : (List.map Completion.idx s.results ++ [i]) ++ List.map Prod.fst rest =
          List.range s.nextIdx := by
        simpa [List.append_assoc] using h1
      rcases hm : m s.db with ⟨e?, d'⟩
      cases e? with
      | some e =>
        rw [drainStep_throw pf s i m rest e d' hw hq hm]
        refine ⟨by simpa using h1', by simpa [hw] using h2,
          by simpa [countResolved] using h3, ?_⟩
        exact qinv_newCompletion s _ h4 (by intro hres; cases hres)
      | none =>
        cases hp : pf s.attempts with
        | none =>
          rw [drainStep_persist pf s i m rest d' hw hq hm hp]
          refine ⟨by simpa using h1', by simpa [hw] using h2,
            by simpa [countResolved] using h3, ?_⟩
          exact qinv_newCompletion s _ h4 (by intro _; rfl)
        | some pe =>
          rw [drainStep_persistFail pf s i m rest d' pe hw hq hm hp]
          refine ⟨by simpa using h1', by simpa [hw] using h2,
            by simpa [countResolved] using h3, ?_⟩
          exact qinv_newCompletion s _ h4 (by intro hres; cases hres)
  · have hw' : s.writing = false := by
      cases hww : s.writing
      · rfl
      · exact absurd hww hw
    rw [drainStep_idle pf s hw']
    exact ⟨h1, h2, h3, h4⟩

theorem qinv_run (pf : Nat → Option Err) (evs : List QEvent) (s : QState)
    (h : QInv s) : QInv (runQ pf evs s) := by
  induction evs generalizing s with
  | nil => exact h
  | cons ev evs ih =>
    cases ev with
    | enq m => exact ih _ (qinv_enqueue m s h)
    | step => exact ih _ (qinv_drain pf s h)

/-- A list that is a left factor of `List.range n` is itself a range. -/
theorem left_factor_range {l₁ l₂ : List Nat} {n : Nat}
    (h : l₁ ++ l₂ = List.range n) : l₁ = List.range l₁.length := by
  have ht : (l₁ ++ l₂).take l₁.length = l₁ := List.take_left l₁ l₂
  rw [h] at ht
  have hn : l₁.length ≤ n := by
    have hl := congrArg List.length h
    simp [List.length_append] at hl
    omega
  rw [List.take_range, min_eq_left hn] at ht
  exact ht.symm

/-- `enqueueWrite` touches neither the persist counter nor the disk. -/
theorem enqueueWrite_frame (m : Doc → Option Err × Doc) (s : QState) :
    (enqueueWrite m s).persists = s.persists ∧ (enqueueWrite m s).disk = s.disk := by
  unfold enqueueWrite
  by_cases hw : s.writing
  · rw [if_pos hw]
    exact ⟨rfl, rfl⟩
  · rw [if_neg hw]
    exact ⟨rfl, rfl⟩

/-- One drain resumption either leaves the persist counter and the disk
both unchanged, or performs exactly one successful persist. -/
theorem drainStep_frame (pf : Nat → Option Err) (s : QState) :
    ((drainStep pf s).persists = s.persists ∧ (drainStep pf s).disk = s.disk) ∨
    (drainStep pf s).persists = s.persists + 1 := by
  by_cases hw : s.writing = true
  · cases hq : s.queue with
    | nil =>
      left
      rw [drainStep_exit pf s hw hq]
      exact ⟨rfl, rfl⟩
    | cons hd rest =>
      obtain ⟨i, m⟩ := hd
      rcases hm : m s.db with ⟨e?, d'⟩
      cases e? with
      | some e =>
        left
        rw [drainStep_throw pf s i m rest e d' hw hq hm]
        exact ⟨rfl, rfl⟩
      | none =>
        cases hp : pf s.attempts with
        | none =>
          right
          rw [drainStep_persist pf s i m rest d' hw hq hm hp]
        | some pe =>
          left
          rw [drainStep_persistFail pf s i m rest d' pe hw hq hm hp]
          exact ⟨rfl, rfl⟩
  · left
    have hw' : s.writing = false := by simpa using hw
    rw [drainStep_idle pf s hw']
    exact ⟨rfl, rfl⟩

/-- The successful-persist counter never decreases along a run. -/
theorem persists_mono (pf : Nat → Option Err) (evs : List QEvent) :
    ∀ s : QState, s.persists ≤ (runQ pf evs s).persists := by
  induction evs with
  | nil =>
    intro s
    exact Nat.le_refl _
  | cons ev evs ih =>
    intro s
    cases ev with
    | enq m =>
      simp only [runQ]
      exact le_trans (le_of_eq (enqueueWrite_frame m s).1.symm) (ih _)
    | step =>
      simp only [runQ]
      rcases drainStep_frame pf s with ⟨hp, _⟩ | hp
      · exact le_trans (le_of_eq hp.symm) (ih _)
      · calc s.persists ≤ s.persists + 1 := Nat.le_succ _
          _ = (drainStep pf s).persists := hp.symm
          _ ≤ _ := ih _

/-- The on-disk content only changes when a persist succeeds: a run during
which the successful-persist counter stays put leaves the file as it was. -/
theorem disk_const_of_no_persist (pf : Nat → Option Err) (evs : List QEvent) :
    ∀ s : QState, (runQ pf evs s).persists = s.persists →
      (runQ pf evs s).disk = s.disk := by
  induction evs with
  | nil =>
    intro s _
    rfl
  | cons ev evs ih =>
    intro s h
    cases ev with
    | enq m =>
      simp only [runQ] at h ⊢
      have hf := enqueueWrite_frame m s
      rw [ih _ (by rw [hf.1]; exact h), hf.2]
    | step =>
      simp only [runQ] at h ⊢
      rcases drainStep_frame pf s with ⟨hp, hd⟩ | hp
      · rw [ih _ (by rw [hp]; exact h), hd]
      · exfalso
        have hmono := persists_mono pf evs (drainStep pf s)
        rw [hp] at hmono
        omega


/-! ## Claim theorems -/

/-- Every element of a filtered list that survived filtering when none was
removed: a filter that kept the whole length kept the whole list. -/
theorem filter_eq_self_of_length {α : Type} (p : α → Bool) :
    ∀ l : List α, (l.filter p).length = l.length → l.filter p = l := by
  intro l
  induction l with
  | nil =>
    intro _
    rfl
  | cons x xs ih =>
    intro h
    by_cases hx : p x = true
    · rw [List.filter_cons_of_pos hx] at h ⊢
      rw [ih (by simpa using h)]
    · rw [List.filter_cons_of_neg hx] at h
      have hle := List.length_filter_le p xs
      simp at h
      omega

/-- C1: mutation requests are processed strictly one at a time in admission
(FIFO) order — after any interleaving of `enqueueWrite` calls and drain-loop
resumptions, the completion log lists admission indices `0, 1, 2, …` in
order, whatever the persist oracle does — and at most one drain loop is
ever active, re-entrant `processQueue` calls included. -/
theorem C1_queue_fifo_single_drain (pf : Nat → Option Err) (evs : List QEvent)
    (d0 : Doc) (disk0 : Option J) :
    (runQ pf evs (initQ d0 disk0)).results.map Completion.idx =
      List.range (runQ pf evs (initQ d0 disk0)).results.length ∧
    (runQ pf evs (initQ d0 disk0)).drainLoops ≤ 1 := by
  obtain ⟨h1, h2, -, -⟩ := qinv_run pf evs _ (qinv_init d0 disk0)
  refine ⟨?_, ?_⟩
  · have hpre := left_factor_range h1
    simpa using hpre
  · rw [h2]
    split <;> omega

/-- C2: a queue entry resolves only in the very step that applied its
mutator and then persisted the whole document (one successful persist per
resolved entry), and at that moment the on-disk JSON parses back to a
document deep-equal to the in-memory one. -/
theorem C2_resolve_implies_persisted (pf : Nat → Option Err) (evs : List QEvent)
    (d0 : Doc) (disk0 : Option J) :
    countResolved (runQ pf evs (initQ d0 disk0)).results =
      (runQ pf evs (initQ d0 disk0)).persists ∧
    (∀ c ∈ (runQ pf evs (initQ d0 disk0)).results,
      c.outcome = Outcome.resolved →
        c.diskAfter = some (encodeDoc c.dbAfter) ∧
        c.diskAfter.bind decodeDoc = some c.dbAfter) ∧
    (∀ i m rest d',
      (runQ pf evs (initQ d0 disk0)).writing = true →
      (runQ pf evs (initQ d0 disk0)).queue = (i, m) :: rest →
      m (runQ pf evs (initQ d0 disk0)).db = (none, d') →
      pf (runQ pf evs (initQ d0 disk0)).attempts = none →
      drainStep pf (runQ pf evs (initQ d0 disk0)) =
        { runQ pf evs (initQ d0 disk0) with
            queue := rest, db := d', disk := some (encodeDoc d')
            attempts := (runQ pf evs (initQ d0 disk0)).attempts + 1
            persists := (runQ pf evs (initQ d0 disk0)).persists + 1
            results := (runQ pf evs (initQ d0 disk0)).results ++
              [⟨i, Outcome.resolved, d', some (encodeDoc d')⟩] }) := by
  obtain ⟨-, -, h3, h4⟩ := qinv_run pf evs _ (qinv_init d0 disk0)
  refine ⟨h3, ?_, ?_⟩
  · intro c hc hres
    have hd := h4 c hc hres
    refine ⟨hd, ?_⟩
    rw [hd]
    simpa using decodeDoc_encodeDoc c.dbAfter
  · intro i m rest d' hw hq hm hp
    exact drainStep_persist pf _ i m rest d' hw hq hm hp

/-- Witness for C2: one concrete create against the default document — its
entry resolves, the persist counter matches, and the persisted JSON decodes
back to the in-memory document. -/
theorem C2_witness :
    countResolved (runQ noFail sampleEvs (initQ defaultDoc none)).results =
      (runQ noFail sampleEvs (initQ defaultDoc none)).persists ∧
    (⟨0, Outcome.resolved, ⟨⟨"GPTMart"⟩, [sampleItem]⟩,
        some (encodeDoc ⟨⟨"GPTMart"⟩, [sampleItem]⟩)⟩ : Completion) ∈
      (runQ noFail sampleEvs (initQ defaultDoc none)).results ∧
    (some (encodeDoc (⟨⟨"GPTMart"⟩, [sampleItem]⟩ : Doc))).bind decodeDoc =
      some (⟨⟨"GPTMart"⟩, [sampleItem]⟩ : Doc) := by
  have h := C2_resolve_implies_persisted noFail sampleEvs defaultDoc none
  have hmem : (⟨0, Outcome.resolved, ⟨⟨"GPTMart"⟩, [sampleItem]⟩,
      some (encodeDoc ⟨⟨"GPTMart"⟩, [sampleItem]⟩)⟩ : Completion) ∈
      (runQ noFail sampleEvs (initQ defaultDoc none)).results := List.Mem.head _
  exact ⟨h.1, hmem, (h.2.1 _ hmem rfl).2⟩

/-- C3: when a queued entry's mutator throws (for the mutators this server
actually enqueues), the entry's promise rejects with that error, nothing is
persisted, the document content is exactly what it was before the mutator
ran, and the drain loop stays active on the remaining entries. -/
theorem C3_throw_rejects_no_persist (pf : Nat → Option Err) (s : QState)
    (i : Nat) (m : Doc → Option Err × Doc)
    (rest : List (Nat × (Doc → Option Err × Doc))) (e : Err) (d' : Doc)
    (hw : s.writing = true) (hq : s.queue = (i, m) :: rest)
    (hm : m s.db = (some e, d')) (hprog : ProgramMutator m) :
    drainStep pf s =
      { s with queue := rest, db := d'
               results := s.results ++ [⟨i, Outcome.rejected e, d', s.disk⟩] } ∧
    d' = s.db ∧
    (drainStep pf s).disk = s.disk ∧
    (drainStep pf s).persists = s.persists ∧
    (drainStep pf s).writing = true ∧
    (drainStep pf s).queue = rest := by
  have hstep := drainStep_throw pf s i m rest e d' hw hq hm
  have hdoc : d' = s.db := by
    rcases hprog with ⟨item, rfl⟩ | ⟨id, p, rfl⟩ | ⟨id, rfl⟩ | ⟨t, rfl⟩
    · simp [createMutator] at hm
    · unfold updateMutator at hm
      by_cases hany : s.db.items.any (fun x => x.id = id) = true
      · rw [if_pos hany] at hm
        simp at hm
      · rw [if_neg hany] at hm
        injection hm with h1 h2
        exact h2.symm
    · simp only [deleteMutator] at hm
      by_cases hlen : (s.db.items.filter (fun x => decide (x.id ≠ id))).length =
          s.db.items.length
      · rw [if_pos hlen] at hm
        injection hm with h1 h2
        rw [← h2, filter_eq_self_of_length _ _ hlen]
      · rw [if_neg hlen] at hm
        simp at hm
    · simp [settingsMutator] at hm
  refine ⟨hstep, hdoc, ?_, ?_, ?_, ?_⟩
  · rw [hstep]
  · rw [hstep]
  · rw [hstep]
    exact hw
  · rw [hstep]

/-- Witness for C3: an update of an id absent from the empty catalog, in
the middle of a drain — the entry rejects, disk and persist counter are
untouched. -/
theorem C3_witness :
    drainStep noFail throwState =
      { throwState with queue := [], db := defaultDoc
                        results := [⟨0, Outcome.rejected notFoundErr,
                          defaultDoc, throwState.disk⟩] } ∧
    (drainStep noFail throwState).disk = throwState.disk ∧
    (drainStep noFail throwState).persists = throwState.persists := by
  have h := C3_throw_rejects_no_persist noFail throwState 0
    (updateMutator "zz" samplePatch) [] notFoundErr defaultDoc rfl rfl rfl
    (Or.inr (Or.inl ⟨"zz", samplePatch, rfl⟩))
  exact ⟨h.1, h.2.2.1, h.2.2.2.1⟩

/-- C6: when a mutator succeeds but the disk persist fails, the entry's
promise rejects with the persistence error, the in-memory document keeps
the mutator's effect (no rollback), the file is untouched, and it stays
untouched for as long as no later entry persists successfully. -/
theorem C6_persist_failure_divergence (pf : Nat → Option Err) (s : QState)
    (i : Nat) (m : Doc → Option Err × Doc)
    (rest : List (Nat × (Doc → Option Err × Doc))) (d' : Doc) (pe : Err)
    (hw : s.writing = true) (hq : s.queue = (i, m) :: rest)
    (hm : m s.db = (none, d')) (hp : pf s.attempts = some pe) :
    drainStep pf s =
      { s with queue := rest, db := d', attempts := s.attempts + 1
               results := s.results ++ [⟨i, Outcome.rejected pe, d', s.disk⟩] } ∧
    (drainStep pf s).db = d' ∧
    (drainStep pf s).disk = s.disk ∧
    (∀ evs, (runQ pf evs (drainStep pf s)).persists = s.persists →
      (runQ pf evs (drainStep pf s)).disk = s.disk) := by
  have hstep := drainStep_persistFail pf s i m rest d' pe hw hq hm hp
  refine ⟨hstep, ?_, ?_, ?_⟩
  · rw [hstep]
  · rw [hstep]
  · intro evs hns
    have hper : (drainStep pf s).persists = s.persists := by
      rw [hstep]
    have hsame : (runQ pf evs (drainStep pf s)).persists =
        (drainStep pf s).persists := by
      rw [hper]
      exact hns
    have hd := disk_const_of_no_persist pf evs (drainStep pf s) hsame
    rw [hd, hstep]

/-- Witness for C6: a create whose persist attempt fails — the document
keeps the new item in memory while the disk still holds the old content,
also after a further drain resumption. -/
theorem C6_witness :
    (drainStep failFirst persistFailState).db = ⟨⟨"GPTMart"⟩, [sampleItem]⟩ ∧
    (drainStep failFirst persistFailState).disk = persistFailState.disk ∧
    (runQ failFirst [QEvent.step] (drainStep failFirst persistFailState)).disk =
      persistFailState.disk := by
  have h := C6_persist_failure_divergence failFirst persistFailState 0
    (createMutator sampleItem) [] ⟨⟨"GPTMart"⟩, [sampleItem]⟩ diskErr
    rfl rfl rfl rfl
  exact ⟨h.2.1, h.2.2.1, h.2.2.2 [QEvent.step] rfl⟩

/-- C7: for an id absent from `items`, the update mutator throws the 404
`Item not found` error before touching the document, the delete mutator
throws the same error leaving the document content unchanged, and a drain
step handling either entry performs no persist and leaves the file as it
was. -/
theorem C7_notfound_rejects_unchanged (id : String) (p : ItemPatch) (d : Doc)
    (h : ∀ x ∈ d.items, x.id ≠ id) :
    updateMutator id p d = (some notFoundErr, d) ∧
    deleteMutator id d = (some notFoundErr, d) ∧
    notFoundErr.status = some 404 ∧
    (∀ pf s i rest, s.writing = true → s.db = d →
      s.queue = (i, updateMutator id p) :: rest →
      (drainStep pf s).disk = s.disk ∧ (drainStep pf s).persists = s.persists) ∧
    (∀ pf s i rest, s.writing = true → s.db = d →
      s.queue = (i, deleteMutator id) :: rest →
      (drainStep pf s).disk = s.disk ∧ (drainStep pf s).persists = s.persists) := by
  have hany : d.items.any (fun x => x.id = id) = false := by
    simp only [List.any_eq_false, decide_eq_true_eq]
    exact h
  have hupd : updateMutator id p d = (some notFoundErr, d) := by
    unfold updateMutator
    rw [hany]
    rfl
  have hfilter : d.items.filter (fun x => x.id ≠ id) = d.items := by
    rw [List.filter_eq_self]
    intro a ha
    simpa using h a ha
  have hdel : deleteMutator id d = (some notFoundErr, d) := by
    simp only [deleteMutator]
    rw [hfilter, if_pos rfl]
  refine ⟨hupd, hdel, rfl, ?_, ?_⟩
  · intro pf s i rest hw hdb hq
    have hm : updateMutator id p s.db = (some notFoundErr, d) := by
      rw [hdb]
      exact hupd
    have hstep := drainStep_throw pf s i (updateMutator id p) rest notFoundErr d hw hq hm
    exact ⟨by rw [hstep], by rw [hstep]⟩
  · intro pf s i rest hw hdb hq
    have hm : deleteMutator id s.db = (some notFoundErr, d) := by
      rw [hdb]
      exact hdel
    have hstep := drainStep_throw pf s i (deleteMutator id) rest notFoundErr d hw hq hm
    exact ⟨by rw [hstep], by rw [hstep]⟩

/-- Witness for C7: id `"zz"` is absent from `sampleDoc`; both mutators
throw the 404 error with the document unchanged, and a drain step handling
the update entry leaves disk and persist counter alone. -/
theorem C7_witness :
    updateMutator "zz" samplePatch sampleDoc = (some notFoundErr, sampleDoc) ∧
    deleteMutator "zz" sampleDoc = (some notFoundErr, sampleDoc) ∧
    notFoundErr.status = some 404 ∧
    (drainStep noFail c7State).disk = c7State.disk ∧
    (drainStep noFail c7State).persists = c7State.persists := by
  have h := C7_notfound_rejects_unchanged "zz" samplePatch sampleDoc
    (by decide)
  have hstep := h.2.2.2.1 noFail c7State 0 [] rfl rfl rfl
  exact ⟨h.1, h.2.1, h.2.2.1, hstep.1, hstep.2⟩

/-- C4: `atomicWrite` writes the data to the sibling `.tmp` path and then
renames it over the real path, so a crash after the temp-file write leaves
the real path byte-for-byte unchanged, and at every point of the write the
real path holds either the fully-old or the fully-new content, never a
truncation; likewise for `writeJSON` of the plain-http variant at any
path. -/
theorem C4_atomic_write_crash_safe (fs : FS) (data : String) :
    TMP_PATH = DB_PATH ++ ".tmp" ∧
    (fsWrite fs TMP_PATH data) DB_PATH = fs DB_PATH ∧
    (∀ st ∈ atomicWrite DB_PATH data fs,
      st DB_PATH = fs DB_PATH ∨ st DB_PATH = some data) ∧
    (∀ (file data2 : String) (fs2 : FS),
      (fsWrite fs2 (file ++ ".tmp") data2) file = fs2 file ∧
      ∀ st ∈ writeJSON file data2 fs2,
        st file = fs2 file ∨ st file = some data2) := by
  have hmid : (fsWrite fs TMP_PATH data) DB_PATH = fs DB_PATH := by
    unfold fsWrite
    rw [if_neg (by decide)]
  refine ⟨rfl, hmid, ?_, ?_⟩
  · intro st hst
    simp only [atomicWrite, List.mem_cons, List.not_mem_nil, or_false] at hst
    rcases hst with rfl | rfl | rfl
    · exact Or.inl rfl
    · exact Or.inl hmid
    · refine Or.inr ?_
      unfold fsRename fsWrite
      rw [if_pos rfl, if_pos rfl]
  · intro file data2 fs2
    have hne : file ≠ file ++ ".tmp" := by
      intro hcontra
      have hlen := congrArg String.length hcontra
      simp [String.length_append] at hlen
      exact absurd hlen (by decide)
    have hmid2 : (fsWrite fs2 (file ++ ".tmp") data2) file = fs2 file := by
      unfold fsWrite
      rw [if_neg hne]
    refine ⟨hmid2, ?_⟩
    intro st hst
    simp only [writeJSON, List.mem_cons, List.not_mem_nil, or_false] at hst
    rcases hst with rfl | rfl | rfl
    · exact Or.inl rfl
    · exact Or.inl hmid2
    · refine Or.inr ?_
      unfold fsRename fsWrite
      rw [if_pos rfl, if_pos rfl]

/-- Witness for C4: on an initially empty file system, the state after the
temp-file write still holds nothing at `DB_PATH`, and the state after the
rename holds exactly the written data. -/
theorem C4_witness :
    (fsWrite emptyFS TMP_PATH "x") DB_PATH = emptyFS DB_PATH ∧
    ((fsRename (fsWrite emptyFS TMP_PATH "x") TMP_PATH DB_PATH) DB_PATH =
        emptyFS DB_PATH ∨
      (fsRename (fsWrite emptyFS TMP_PATH "x") TMP_PATH DB_PATH) DB_PATH =
        some "x") ∧
    ((fsWrite emptyFS ("leads.json" ++ ".tmp") "y") "leads.json" =
      emptyFS "leads.json") := by
  have h := C4_atomic_write_crash_safe emptyFS "x"
  refine ⟨h.2.1, h.2.2.1 _ ?_, (h.2.2.2 "leads.json" "y" emptyFS).1⟩
  simp [atomicWrite]

/-- C5 (code bug): `loadDB` is supposed to fall back to the default
document whenever the file is absent or does not parse to a valid
document, persisting that default.  It does so for an absent/unparseable
file, but for a file whose text parses to `null` (or any other falsy or
non-object value) the module-level `DB` has already been reassigned before
the validity check throws, so the catch block persists that invalid value:
in-memory state and disk both end up holding `null`, not the default.
`readJSON` of the plain-http variant likewise returns `null` untouched.  -/
theorem C5_loadDB_invalid_parse_eval :
    loadDB (some J.null) defaultJ = (J.null, some J.null) ∧
    loadDB none defaultJ = (defaultJ, some defaultJ) ∧
    readJSON (some J.null) defaultJ = (J.null, none) ∧
    J.null ≠ defaultJ := by
  refine ⟨rfl, rfl, rfl, ?_⟩
  intro hcontra
  exact nomatch hcontra

/-- C8 counterexample: the queue server's create handler runs
`db.items.push(item)` — against the one-item catalog `sampleDoc`, the new
item ends up at the *end*, not the front. -/
theorem C8_counterexample :
    ((createMutator sampleItem2 sampleDoc).2).items = [sampleItem, sampleItem2] ∧
    ((createMutator sampleItem2 sampleDoc).2).items ≠
      sampleItem2 :: sampleDoc.items := by
  exact ⟨rfl, by decide⟩

/-- C8 amended: the plain-http variants' create handlers `unshift` the new
item to the front of `items`, while the queue server's create handler
`push`es it to the end (never throwing). -/
theorem C8_amended_insert_position (it : Item) (d : Doc) :
    serverCreate it d = { d with items := it :: d.items } ∧
    (createMutator it d).1 = none ∧
    (createMutator it d).2 = { d with items := d.items ++ [it] } :=
  ⟨rfl, rfl, rfl⟩

/-- C9 counterexample: the plain-http update handler spreads the *raw*
request body over the stored item, so a payload carrying an `id` key
overwrites the stored id: updating `"a1"` with `evilPatch` stores an item
whose id is `"evil"`. -/
theorem C9_counterexample :
    serverUpdate "a1" evilPatch sampleDoc =
      some ⟨⟨"GPTMart"⟩, [evilResultItem]⟩ ∧
    evilResultItem.id ≠ sampleItem.id ∧
    sampleDoc.items.map Item.id = ["a1"] ∧
    evilPatch.id = some "evil" := by
  exact ⟨by decide, by decide, rfl, rfl⟩

/-- C9 amended: updates through `coerceItemPayload` (the queue server's
path) preserve `id` and `createdAt` for *every* request body, because the
coerced payload never carries those keys; the raw-body spread of the
plain-http handlers preserves them only when the payload omits them. -/
theorem C9_amended_id_createdAt_preserved (old : Item) (body : Body)
    (p : ItemPatch) (hc : coerceItemPayload body = .ok p)
    (b : ItemPatch) (hid : b.id = none) (hca : b.createdAt = none) :
    (spreadItem old p).id = old.id ∧
    (spreadItem old p).createdAt = old.createdAt ∧
    (spreadItem old b).id = old.id ∧
    (spreadItem old b).createdAt = old.createdAt := by
  have hpid : p.id = none ∧ p.createdAt = none := by
    simp only [coerceItemPayload] at hc
    by_cases hcond : jsTrim (body.title.getD "") = "" ∨
        jsTrim (body.url.getD "") = ""
    · rw [if_pos hcond] at hc
      exact Except.noConfusion hc
    · rw [if_neg hcond] at hc
      injection hc with h
      rw [← h]
      exact ⟨rfl, rfl⟩
  refine ⟨?_, ?_, ?_, ?_⟩ <;> simp [spreadItem, hpid.1, hpid.2, hid, hca]

/-- Witness for C9 (amended): a concrete coerced update and a concrete
id-free raw patch both leave id and createdAt of the stored item alone. -/
theorem C9_witness :
    (spreadItem sampleItem2 samplePatch).id = sampleItem2.id ∧
    (spreadItem sampleItem2 samplePatch).createdAt = sampleItem2.createdAt ∧
    (spreadItem sampleItem2 titlePatch).id = sampleItem2.id ∧
    (spreadItem sampleItem2 titlePatch).createdAt = sampleItem2.createdAt :=
  C9_amended_id_createdAt_preserved sampleItem2 sampleBody samplePatch rfl
    titlePatch rfl rfl

/-- C10: every payload the queue server's create/update endpoints accept
comes out of `coerceItemPayload` with a non-empty title, a non-empty url
and a status that is `"live"` or `"hidden"` (anything else, `"pending"`
included, is silently coerced to `"live"`); the update spread and the
created item inherit exactly these fields, and an update overwrites the
stored status even when the request omits it. -/
theorem C10_coerce_status_invariants (body : Body) (p : ItemPatch)
    (hc : coerceItemPayload body = .ok p) :
    (∃ t, p.title = some t ∧ t ≠ "") ∧
    (∃ u, p.url = some u ∧ u ≠ "") ∧
    (p.status = some "live" ∨ p.status = some "hidden") ∧
    (body.status ≠ some "hidden" → p.status = some "live") ∧
    (∀ old : Item,
      (spreadItem old p).status =
        (if body.status = some "hidden" then "hidden" else "live") ∧
      (spreadItem old p).title ≠ "" ∧ (spreadItem old p).url ≠ "") ∧
    (∀ (newId : String) (now : Nat),
      (buildItem newId now p).id = newId ∧
      (buildItem newId now p).createdAt = now ∧
      (buildItem newId now p).title ≠ "" ∧
      (buildItem newId now p).url ≠ "" ∧
      (buildItem newId now p).status =
        (if body.status = some "hidden" then "hidden" else "live")) := by
  simp only [coerceItemPayload] at hc
  by_cases hcond : jsTrim (body.title.getD "") = "" ∨
      jsTrim (body.url.getD "") = ""
  · rw [if_pos hcond] at hc
    exact Except.noConfusion hc
  · rw [if_neg hcond] at hc
    injection hc with h
    push_neg at hcond
    obtain ⟨ht, hu⟩ := hcond
    subst h
    refine ⟨⟨_, rfl, ht⟩, ⟨_, rfl, hu⟩, ?_, ?_, ?_, ?_⟩
    · by_cases hs : body.status = some "hidden"
      · right
        simp [hs]
      · left
        simp [hs]
    · intro hns
      simp [hns]
    · intro old
      exact ⟨by simp [spreadItem], by simpa [spreadItem] using ht,
        by simpa [spreadItem] using hu⟩
    · intro newId now
      exact ⟨rfl, rfl, by simpa [buildItem, spreadItem] using ht,
        by simpa [buildItem, spreadItem] using hu, by simp [buildItem, spreadItem]⟩

/-- Witness for C10: a request claiming status `"pending"` is accepted and
stored as `"live"`, and applying the update to a `"hidden"` item overwrites
its status. -/
theorem C10_witness :
    sampleBody.status = some "pending" ∧
    samplePatch.status = some "live" ∧
    (spreadItem sampleItem2 samplePatch).status = "live" ∧
    sampleItem2.status = "hidden" := by
  have h := C10_coerce_status_invariants sampleBody samplePatch rfl
  refine ⟨rfl, h.2.2.2.1 (by decide), ?_, rfl⟩
  have hs := (h.2.2.2.2.1 sampleItem2).1
  simpa [sampleBody] using hs

end GPTMart
